import Mathlib

/-!
Verification of the reference-counted smart pointer in `SharedPtrMain.cpp`.

The development shallowly embeds the two components of the program:

* `SharedPtrDataManagementTable` (the Ownership Ledger): a map from the raw
  address of a managed object (`void*`, modelled as `Nat`) to its reference
  count (`std::atomic_size_t`, modelled as `Nat`).  The map itself is
  modelled as a function `Nat → Option Nat`, where `none` plays the role of
  `find == end` (no entry).  The methods `addData`, `removeData` and
  `getCount` are translated line by line, including the shared null check of
  `convertToVoidPtr`, which throws `std::logic_error` on a null argument
  (modelled as `SPError.invalidOperation`).  The methods that mutate the
  table are written in state-passing style: they return the table exactly as
  it is at the moment the C++ method returns or throws, so a theorem about a
  failure path really does show the table is unchanged.

* `SharedPtr<DataT>` handles: each live handle holds `m_data : Option Nat`
  (a nullable raw pointer, identified by the managed object's address).  A
  whole program state (`SPState`) carries the list of live handles (keyed by
  an identifier standing for the handle object's own address), the one
  process-wide table, the list of raw addresses that have been passed to
  `delete` so far, and fresh-name counters for handles and objects.  Every
  public lifecycle operation of `SharedPtr` is an `Op`, and `step` gives its
  exact effect, mirroring the member functions `SharedPtr(DataT*)`, the
  default constructor, the copy/move constructors, `assignSelf` with its
  two `assignSelfContinuation` overloads, the destructor, `release()`,
  `releaseData(bool)` and `operator->`/`operator*` with
  `throwIfInvalidAccess`.  A C++ exception is an `Except.error` result.
-/

/-- Errors of the program: `invalidOperation` is the `std::logic_error`
thrown by `convertToVoidPtr` on null data and by `removeData` on unmanaged
data; `nullDereference` is the `std::logic_error` thrown by
`throwIfInvalidAccess`; `badRef` is a model-level error for an operation
that names a handle that does not exist (not expressible in C++). -/
inductive SPError where
  | invalidOperation
  | nullDereference
  | badRef
deriving DecidableEq, Repr

/-- The `unordered_map<void*, atomic_size_t>` of the management table:
`none` models the absence of an entry (`find` returning `end`). -/
abbrev Table := Nat → Option Nat

/-- Pointwise update of the table: models `emplace`, `++`/`--` on a found
entry (second component `some c`), and `erase` (second component `none`). -/
def tset (t : Table) (p : Nat) (v : Option Nat) : Table :=
  fun q => if q = p then v else t q

/-- The empty table (a fresh `SharedPtrDataManagementTable`). -/
def emptyTable : Table := fun _ => none

/-- Model of `convertToVoidPtr`: throws on null data, otherwise yields the
identity (address) of the object. -/
def convertToVoidPtr (d : Option Nat) : Except SPError Nat :=
  match d with
  | none => .error .invalidOperation
  | some p => .ok p

/-- Model of `SharedPtrDataManagementTable::addData`: null data throws via
`convertToVoidPtr`; an unknown identity is inserted with count 1; a known
identity has its count incremented.  The returned table is the table at the
moment the method returns or throws. -/
def addData (t : Table) (d : Option Nat) : Table × Option SPError :=
  match d with
  | none => (t, some .invalidOperation)
  | some p =>
    match t p with
    | none => (tset t p (some 1), none)
    | some c => (tset t p (some (c + 1)), none)

/-- Model of `SharedPtrDataManagementTable::removeData`: null data throws
via `convertToVoidPtr`; an unmanaged identity throws; a count above 1 is
decremented and `false` (not last) is returned; otherwise the entry is
erased and `true` (last) is returned.  The returned table is the table at
the moment the method returns or throws. -/
def removeData (t : Table) (d : Option Nat) : Table × Except SPError Bool :=
  match d with
  | none => (t, .error .invalidOperation)
  | some p =>
    match t p with
    | none => (t, .error .invalidOperation)
    | some c =>
      if 1 < c then (tset t p (some (c - 1)), .ok false)
      else (tset t p none, .ok true)

/-- Model of `SharedPtrDataManagementTable::getCount`: null data throws via
`convertToVoidPtr`; otherwise the count of a present entry, or zero when
`find` reaches `end`. -/
def getCount (t : Table) (d : Option Nat) : Except SPError Nat :=
  match d with
  | none => .error .invalidOperation
  | some p => .ok ((t p).getD 0)

/-- The live `SharedPtr` handle objects: each pair is the handle's own
identity and its `m_data` member (`none` is a null handle). -/
abbrev Handles := List (Nat × Option Nat)

/-- Read the `m_data` member of handle `h` (the first entry with that
identity); `none` when no such handle exists. -/
def getData (l : Handles) (h : Nat) : Option (Option Nat) :=
  match l with
  | [] => none
  | (i, d) :: tl => if h = i then some d else getData tl h

/-- Write the `m_data` member of handle `h` (the first entry with that
identity). -/
def setData (l : Handles) (h : Nat) (d : Option Nat) : Handles :=
  match l with
  | [] => []
  | (i, e) :: tl => if h = i then (i, d) :: tl else (i, e) :: setData tl h d

/-- Remove handle `h` from the live handles (the handle object ceases to
exist at the end of its destructor). -/
def eraseH (l : Handles) (h : Nat) : Handles :=
  match l with
  | [] => []
  | (i, e) :: tl => if h = i then tl else (i, e) :: eraseH tl h

/-- Number of currently-live, currently-non-null handles whose `m_data`
is the object `p`. -/
def refs (l : Handles) (p : Nat) : Nat :=
  match l with
  | [] => 0
  | (_, d) :: tl => (if d = some p then 1 else 0) + refs tl p

/-- Whole-program state: the live handles, the process-wide management
table, the addresses already passed to `delete` (most recent first), and
fresh-identity counters for handle objects and managed objects. -/
structure SPState where
  handles : Handles
  table : Table
  deleted : List Nat
  nextH : Nat
  nextO : Nat

/-- The state at program start: no handles, empty table, nothing deleted. -/
def initState : SPState :=
  ⟨[], emptyTable, [], 0, 0⟩

/-- Model of `SharedPtr::releaseData(bool deleteIfLast)` on handle `h`:
`if (m_data && removeData(m_data) && deleteIfLast) delete m_data;
m_data = nullptr;`.  A null `m_data` skips the table entirely; otherwise
`removeData` runs and, when it reports the last reference and
`deleteIfLast` is set, the object's address is recorded as deleted. -/
def releaseData (s : SPState) (h : Nat) (deleteIfLast : Bool) :
    Except SPError SPState :=
  match getData s.handles h with
  | none => .error .badRef
  | some none => .ok { s with handles := setData s.handles h none }
  | some (some p) =>
    match removeData s.table (some p) with
    | (_, .error e) => .error e
    | (t', .ok last) =>
      .ok { s with
            table := t'
            handles := setData s.handles h none
            deleted := if last && deleteIfLast then p :: s.deleted else s.deleted }

/-- The public lifecycle operations of `SharedPtr`.  Handles are named by
their identity in the state; objects by their address.
`newObj` is `MakeSharedPtr` (construct from a fresh `new`-ed raw pointer),
`newNull` the default / `nullptr_t` constructor, `copyCon g` the copy or
converting-copy constructor from handle `g`, `moveCon g` the move
constructor from handle `g`, `copyAsn a b` copy-assignment `a = b`,
`moveAsn a b` move-assignment `a = move(b)`, `destroy h` the destructor,
`release h` the member `release()`, and `deref h` is `operator->` /
`operator*`. -/
inductive Op where
  | newObj
  | newNull
  | copyCon (g : Nat)
  | moveCon (g : Nat)
  | copyAsn (a b : Nat)
  | moveAsn (a b : Nat)
  | destroy (h : Nat)
  | release (h : Nat)
  | deref (h : Nat)
deriving DecidableEq, Repr

/-- One operation of the program, mirroring the member functions of
`SharedPtr`.  Copy construction delegates to the raw-pointer constructor
(`SharedPtr{other.m_data}`), which registers only non-null data; move
construction copies `m_data` and nulls the source without touching the
table; assignment is `assignSelf`: a no-op on self-assignment, otherwise
`releaseData(true)`, then `m_data = other.m_data`, then the copy
continuation `addData(m_data)` (which throws when the adopted data is
null) or the move continuation `other.m_data = nullptr`. -/
def step (s : SPState) (op : Op) : Except SPError SPState :=
  match op with
  | .newObj =>
    match addData s.table (some s.nextO) with
    | (_, some e) => .error e
    | (t', none) =>
      .ok ⟨(s.nextH, some s.nextO) :: s.handles, t', s.deleted,
           s.nextH + 1, s.nextO + 1⟩
  | .newNull =>
    .ok { s with handles := (s.nextH, none) :: s.handles, nextH := s.nextH + 1 }
  | .copyCon g =>
    match getData s.handles g with
    | none => .error .badRef
    | some none =>
      .ok { s with handles := (s.nextH, none) :: s.handles, nextH := s.nextH + 1 }
    | some (some p) =>
      match addData s.table (some p) with
      | (_, some e) => .error e
      | (t', none) =>
        .ok { s with handles := (s.nextH, some p) :: s.handles, table := t',
                     nextH := s.nextH + 1 }
  | .moveCon g =>
    match getData s.handles g with
    | none => .error .badRef
    | some d =>
      .ok { s with handles := (s.nextH, d) :: setData s.handles g none,
                   nextH := s.nextH + 1 }
  | .copyAsn a b =>
    if a = b then .ok s
    else
      match getData s.handles a, getData s.handles b with
      | some _, some db =>
        match releaseData s a true with
        | .error e => .error e
        | .ok s1 =>
          match addData s1.table db with
          | (_, some e) => .error e
          | (t', none) =>
            .ok { s1 with handles := setData s1.handles a db, table := t' }
      | _, _ => .error .badRef
  | .moveAsn a b =>
    if a = b then .ok s
    else
      match getData s.handles a, getData s.handles b with
      | some _, some db =>
        match releaseData s a true with
        | .error e => .error e
        | .ok s1 =>
          .ok { s1 with handles := setData (setData s1.handles a db) b none }
      | _, _ => .error .badRef
  | .destroy h =>
    match releaseData s h true with
    | .error e => .error e
    | .ok s1 => .ok { s1 with handles := eraseH s1.handles h }
  | .release h => releaseData s h false
  | .deref h =>
    match getData s.handles h with
    | none => .error .badRef
    | some none => .error .nullDereference
    | some (some _) => .ok s

/-- Run a sequence of operations from a state; an exception aborts the
run. -/
def run (ops : List Op) (s : SPState) : Except SPError SPState :=
  match ops with
  | [] => .ok s
  | op :: rest =>
    match step s op with
    | .error e => .error e
    | .ok s' => run rest s'

/-- Model of `operator->` / `operator*` on a handle's `m_data`:
`throwIfInvalidAccess(); return m_data;`. -/
def opArrow (d : Option Nat) : Except SPError Nat :=
  match d with
  | none => .error .nullDereference
  | some p => .ok p

/-! ### Helper lemmas about the handle list -/

theorem getData_setData_self {l : Handles} {h : Nat} {d0 : Option Nat}
    (hg : getData l h = some d0) (d : Option Nat) :
    getData (setData l h d) h = some d := by
  induction l with
  | nil => simp [getData] at hg
  | cons x tl ih =>
    obtain ⟨i, e⟩ := x
    by_cases hi : h = i
    · simp [setData, getData, hi]
    · simp [getData, hi] at hg
      simp [setData, getData, hi, ih hg]

theorem getData_setData_ne {l : Handles} {h h' : Nat} (hne : h' ≠ h)
    (d : Option Nat) : getData (setData l h d) h' = getData l h' := by
  induction l with
  | nil => simp [setData]
  | cons x tl ih =>
    obtain ⟨i, e⟩ := x
    by_cases hi : h = i
    · subst hi
      simp [setData, getData, hne]
    · by_cases hi' : h' = i
      · simp [setData, getData, hi, hi']
      · simp [setData, getData, hi, hi', ih]

theorem refs_setData {l : Handles} {h : Nat} {d0 : Option Nat}
    (hg : getData l h = some d0) (d : Option Nat) (p : Nat) :
    refs (setData l h d) p + (if d0 = some p then 1 else 0) =
      refs l p + (if d = some p then 1 else 0) := by
  induction l with
  | nil => simp [getData] at hg
  | cons x tl ih =>
    obtain ⟨i, e⟩ := x
    by_cases hi : h = i
    · simp [getData, hi] at hg
      subst hg
      simp only [setData, hi, if_pos rfl, refs]
      omega
    · simp [getData, hi] at hg
      have := ih hg
      simp only [setData, hi, if_neg hi, refs]
      omega

theorem refs_eraseH {l : Handles} {h : Nat} {d0 : Option Nat}
    (hg : getData l h = some d0) (p : Nat) :
    refs (eraseH l h) p + (if d0 = some p then 1 else 0) = refs l p := by
  induction l with
  | nil => simp [getData] at hg
  | cons x tl ih =>
    obtain ⟨i, e⟩ := x
    by_cases hi : h = i
    · simp [getData, hi] at hg
      subst hg
      subst hi
      simp [eraseH, refs]
      omega
    · simp [getData, hi] at hg
      have := ih hg
      simp only [eraseH, hi, if_neg hi, refs]
      omega

theorem refs_pos {l : Handles} {h p : Nat}
    (hg : getData l h = some (some p)) : 1 ≤ refs l p := by
  induction l with
  | nil => simp [getData] at hg
  | cons x tl ih =>
    obtain ⟨i, e⟩ := x
    by_cases hi : h = i
    · simp [getData, hi] at hg
      simp [refs, hg]
    · simp [getData, hi] at hg
      have := ih hg
      simp only [refs]
      omega

theorem setData_self_none {l : Handles} {h : Nat}
    (hg : getData l h = some none) : setData l h none = l := by
  induction l with
  | nil => rfl
  | cons x tl ih =>
    obtain ⟨i, e⟩ := x
    by_cases hi : h = i
    · simp [getData, hi] at hg
      simp [setData, hi, hg]
    · simp [getData, hi] at hg
      simp [setData, hi, ih hg]

/-- The element types of the demonstration hierarchy: `Derived` publicly
derives from `Base`, and `other` stands for a class unrelated to both
(used to express failed runtime casts). -/
inductive Cls where
  | base
  | derived
  | other
deriving DecidableEq, Repr

/-- Model of `std::is_base_of_v<T, U>` on the demonstration hierarchy
(reflexive; `base` is a base of `derived`). -/
def isBaseOf (t u : Cls) : Bool :=
  match t, u with
  | .base, .base => true
  | .base, .derived => true
  | .derived, .derived => true
  | .other, .other => true
  | _, _ => false

/-- A typed raw pointer: `none` is null, otherwise the address and the
pointee's dynamic (most-derived) type. -/
abbrev Ptr := Option (Nat × Cls)

/-- Model of `dynamic_cast<T*>(p)`: succeeds exactly when the pointee's
dynamic type is `T` or a class derived from `T`; otherwise yields null. -/
def dynCast (t : Cls) (p : Ptr) : Ptr :=
  match p with
  | none => none
  | some (i, d) => if isBaseOf t d then some (i, d) else none

/-- Model of the primary constructor `SharedPtr(DataT* data)`: registers
non-null data with the management table, stores the raw pointer; null data
is stored without touching the table. -/
def constructFromRaw (t : Table) (p : Ptr) : Table × Ptr :=
  match p with
  | none => (t, none)
  | some (i, d) => ((addData t (some i)).1, some (i, d))

/-- Model of the converting constructor
`template <typename DataU> SharedPtr(DataU* data)` of `SharedPtr<DataT>`
(with `T` the declared element type and `u` the static type of the
argument): when `T` is a base of `U` the pointer upcasts statically,
otherwise it goes through `dynamic_cast<DataT*>`; the result then feeds
the primary constructor. -/
def convertingConstructFrom (t u : Cls) (tbl : Table) (p : Ptr) :
    Table × Ptr :=
  constructFromRaw tbl (if isBaseOf t u then p else dynCast t p)

/-- Shared state of the two-thread race on
`SharedPtrDataManagementTable::removeData` for the single identity `0`:
the table, each thread's value loaded from the atomic counter
(`findItr->second.load()`), and each thread's return value once it has
finished. -/
structure RaceState where
  table : Table
  loc1 : Option Nat
  loc2 : Option Nat
  res1 : Option Bool
  res2 : Option Bool

/-- The atomic events of the two concurrent `removeData(data)` calls, with
`data` at address `0`.  `load1`/`load2` is thread 1/2 executing the map
`find` plus `findItr->second.load()`; `commit1`/`commit2` is the same
thread executing the branch on the loaded value: atomic `--findItr->second`
returning false (not last) when the loaded value exceeded 1, otherwise
`erase` returning true (last).  The class holds no mutex, so nothing
prevents these four events from interleaving arbitrarily. -/
inductive RAct where
  | load1
  | load2
  | commit1
  | commit2
deriving DecidableEq, Repr

/-- Effect of one atomic event on the shared race state. -/
def ract (s : RaceState) (a : RAct) : RaceState :=
  match a with
  | .load1 => { s with loc1 := s.table 0 }
  | .load2 => { s with loc2 := s.table 0 }
  | .commit1 =>
    match s.loc1 with
    | none => s
    | some c =>
      if 1 < c then
        { s with table := tset s.table 0 ((s.table 0).map (· - 1)),
                 res1 := some false }
      else { s with table := tset s.table 0 none, res1 := some true }
  | .commit2 =>
    match s.loc2 with
    | none => s
    | some c =>
      if 1 < c then
        { s with table := tset s.table 0 ((s.table 0).map (· - 1)),
                 res2 := some false }
      else { s with table := tset s.table 0 none, res2 := some true }

/-- Run a schedule (interleaving) of atomic events. -/
def raceRun (acts : List RAct) (s : RaceState) : RaceState :=
  match acts with
  | [] => s
  | a :: rest => raceRun rest (ract s a)

/-- Start state of the race: identity `0` registered with count 2 (its two
owners are the racing threads), neither thread started. -/
def raceInit : RaceState :=
  ⟨tset emptyTable 0 (some 2), none, none, none, none⟩

/-! ### Basic facts about the management-table methods -/

theorem removeData_null (t : Table) :
    removeData t none = (t, .error .invalidOperation) := rfl

theorem removeData_not_managed {t : Table} {p : Nat} (h : t p = none) :
    removeData t (some p) = (t, .error .invalidOperation) := by
  simp [removeData, h]

theorem removeData_dec {t : Table} {p c : Nat} (h : t p = some c) (hc : 1 < c) :
    removeData t (some p) = (tset t p (some (c - 1)), .ok false) := by
  simp [removeData, h, hc]

theorem removeData_erase {t : Table} {p c : Nat} (h : t p = some c)
    (hc : ¬ 1 < c) : removeData t (some p) = (tset t p none, .ok true) := by
  simp [removeData, h, hc]

/-! ### The reference-counting invariant

`Inv` is the global invariant tying the management table to the live
handles: the table has an entry for `p` exactly when some live handle is
non-null with target `p`, and then its count is exactly the number of such
handles; every referenced or deleted address was previously allocated;
no address is deleted twice, and a deleted address is referenced by no
live handle. -/

structure SPInv (s : SPState) : Prop where
  tbl : ∀ p, s.table p = if refs s.handles p = 0 then none else some (refs s.handles p)
  objBound : ∀ p, refs s.handles p ≠ 0 → p < s.nextO
  delNodup : s.deleted.Nodup
  delDead : ∀ p ∈ s.deleted, refs s.handles p = 0 ∧ p < s.nextO

theorem inv_initState : SPInv initState := by
  refine ⟨?_, ?_, ?_, ?_⟩ <;> simp [initState, refs, emptyTable]

theorem inv_table_some {s : SPState} (hI : SPInv s) {p : Nat}
    (h : refs s.handles p ≠ 0) : s.table p = some (refs s.handles p) := by
  rw [hI.tbl p, if_neg h]

/-! ### Characterizing `releaseData` -/

theorem releaseData_ok_shape {s : SPState} {h : Nat} {dif : Bool} {s' : SPState}
    (hok : releaseData s h dif = .ok s') :
    (∃ d, getData s.handles h = some d) ∧
    s'.handles = setData s.handles h none ∧
    s'.nextH = s.nextH ∧ s'.nextO = s.nextO := by
  rcases hg : getData s.handles h with _ | d
  · simp [releaseData, hg] at hok
  · rcases d with _ | p
    · simp [releaseData, hg] at hok
      subst hok
      exact ⟨⟨none, rfl⟩, rfl, rfl, rfl⟩
    · rcases hc : s.table p with _ | c
      · simp [releaseData, hg, removeData_not_managed hc] at hok
      · by_cases h1 : 1 < c
        · simp [releaseData, hg, removeData_dec hc h1] at hok
          subst hok
          exact ⟨⟨some p, rfl⟩, rfl, rfl, rfl⟩
        · simp [releaseData, hg, removeData_erase hc h1] at hok
          subst hok
          exact ⟨⟨some p, rfl⟩, rfl, rfl, rfl⟩

theorem releaseData_null_data {s : SPState} {h : Nat} {dif : Bool} {s' : SPState}
    (hg : getData s.handles h = some none)
    (hok : releaseData s h dif = .ok s') :
    s' = { s with handles := setData s.handles h none } := by
  simp [releaseData, hg] at hok
  exact hok.symm

theorem releaseData_false_deleted {s : SPState} {h : Nat} {s' : SPState}
    (hok : releaseData s h false = .ok s') : s'.deleted = s.deleted := by
  rcases hg : getData s.handles h with _ | d
  · simp [releaseData, hg] at hok
  · rcases d with _ | p
    · simp [releaseData, hg] at hok
      subst hok
      rfl
    · rcases hc : s.table p with _ | c
      · simp [releaseData, hg, removeData_not_managed hc] at hok
      · by_cases h1 : 1 < c
        · simp [releaseData, hg, removeData_dec hc h1] at hok
          subst hok
          rfl
        · simp [releaseData, hg, removeData_erase hc h1] at hok
          subst hok
          rfl



theorem refs_setData_of_null {l : Handles} {h : Nat}
    (hg : getData l h = some none) (d : Option Nat) (q : Nat) :
    refs (setData l h d) q = refs l q + (if d = some q then 1 else 0) := by
  have hx := refs_setData hg d q
  simpa using hx

theorem refs_setData_none_any {l : Handles} {h : Nat} {d0 : Option Nat}
    (hg : getData l h = some d0) (q : Nat) :
    refs (setData l h none) q = refs l q - (if d0 = some q then 1 else 0) := by
  have hx := refs_setData hg none q
  simp only [show ((none : Option Nat) = some q) = False by simp, if_false,
    Nat.add_zero] at hx
  omega

theorem refs_setData_none_of_some {l : Handles} {h p : Nat}
    (hg : getData l h = some (some p)) (q : Nat) :
    refs (setData l h none) q = refs l q - (if p = q then 1 else 0) := by
  have hx := refs_setData_none_any hg q
  simpa using hx

theorem refs_eraseH_of_null {l : Handles} {h : Nat}
    (hg : getData l h = some none) (q : Nat) :
    refs (eraseH l h) q = refs l q := by
  have hx := refs_eraseH hg q
  simpa using hx

theorem releaseData_inv {s : SPState} {h : Nat} {dif : Bool} {s' : SPState}
    (hI : SPInv s) (hok : releaseData s h dif = .ok s') : SPInv s' := by
  rcases hg : getData s.handles h with _ | d
  · simp [releaseData, hg] at hok
  · rcases d with _ | p
    · have hs' := releaseData_null_data hg hok
      subst hs'
      have hrefs : ∀ q, refs (setData s.handles h none) q = refs s.handles q := by
        intro q
        have := refs_setData_none_any hg q
        simpa using this
      refine ⟨?_, ?_, hI.delNodup, ?_⟩
      · intro q
        show s.table q = if refs (setData s.handles h none) q = 0 then none
          else some (refs (setData s.handles h none) q)
        rw [hrefs q]
        exact hI.tbl q
      · intro q hq
        show q < s.nextO
        have hq' : refs (setData s.handles h none) q ≠ 0 := hq
        rw [hrefs q] at hq'
        exact hI.objBound q hq'
      · intro q hq
        show refs (setData s.handles h none) q = 0 ∧ q < s.nextO
        rw [hrefs q]
        exact hI.delDead q hq
    · have hpos : 1 ≤ refs s.handles p := refs_pos hg
      have htp : s.table p = some (refs s.handles p) :=
        inv_table_some hI (by omega)
      by_cases h1 : 1 < refs s.handles p
      · simp [releaseData, hg, removeData_dec htp h1] at hok
        subst hok
        refine ⟨?_, ?_, hI.delNodup, ?_⟩
        · intro q
          show tset s.table p (some (refs s.handles p - 1)) q =
            if refs (setData s.handles h none) q = 0 then none
            else some (refs (setData s.handles h none) q)
          rw [refs_setData_none_of_some hg q]
          by_cases hq : q = p
          · subst hq
            rw [if_pos rfl]
            have hne : refs s.handles q - 1 ≠ 0 := by omega
            simp [tset, hne]
          · rw [if_neg (Ne.symm hq), Nat.sub_zero]
            simp only [tset, if_neg hq]
            exact hI.tbl q
        · intro q hq
          show q < s.nextO
          have hq' : refs (setData s.handles h none) q ≠ 0 := hq
          rw [refs_setData_none_of_some hg q] at hq'
          exact hI.objBound q (by omega)
        · intro q hq
          have hdq := hI.delDead q hq
          show refs (setData s.handles h none) q = 0 ∧ q < s.nextO
          rw [refs_setData_none_of_some hg q]
          exact ⟨by omega, hdq.2⟩
      · have hone : refs s.handles p = 1 := by omega
        simp [releaseData, hg, removeData_erase htp h1] at hok
        subst hok
        have hpndel : p ∉ s.deleted := by
          intro hmem
          have := (hI.delDead p hmem).1
          omega
        refine ⟨?_, ?_, ?_, ?_⟩
        · intro q
          show tset s.table p none q =
            if refs (setData s.handles h none) q = 0 then none
            else some (refs (setData s.handles h none) q)
          rw [refs_setData_none_of_some hg q]
          by_cases hq : q = p
          · subst hq
            rw [if_pos rfl, hone]
            simp [tset]
          · rw [if_neg (Ne.symm hq), Nat.sub_zero]
            simp only [tset, if_neg hq]
            exact hI.tbl q
        · intro q hq
          show q < s.nextO
          have hq' : refs (setData s.handles h none) q ≠ 0 := hq
          rw [refs_setData_none_of_some hg q] at hq'
          exact hI.objBound q (by omega)
        · show List.Nodup (if dif then p :: s.deleted else s.deleted)
          rcases dif with _ | _
          · simpa using hI.delNodup
          · simpa using ⟨hpndel, hI.delNodup⟩
        · intro q hq
          have hqmem : q = p ∨ q ∈ s.deleted := by
            rcases dif with _ | _
            · exact Or.inr (by simpa using hq)
            · have hq2 : q ∈ p :: s.deleted := by simpa using hq
              simpa using hq2
          show refs (setData s.handles h none) q = 0 ∧ q < s.nextO
          rw [refs_setData_none_of_some hg q]
          rcases hqmem with hqp | hqdel
          · subst hqp
            rw [if_pos rfl, hone]
            exact ⟨by omega, hI.objBound q (by omega)⟩
          · have hdq := hI.delDead q hqdel
            exact ⟨by omega, hdq.2⟩

theorem step_inv {s : SPState} {op : Op} {s' : SPState}
    (hI : SPInv s) (hok : step s op = .ok s') : SPInv s' := by
  cases op with
  | newObj =>
    have hrn : refs s.handles s.nextO = 0 := by
      by_contra hc
      exact absurd (hI.objBound _ hc) (lt_irrefl _)
    have htn : s.table s.nextO = none := by rw [hI.tbl _, if_pos hrn]
    simp [step, addData, htn] at hok
    subst hok
    refine ⟨?_, ?_, hI.delNodup, ?_⟩
    · intro q
      show tset s.table s.nextO (some 1) q =
        if refs ((s.nextH, some s.nextO) :: s.handles) q = 0 then none
        else some (refs ((s.nextH, some s.nextO) :: s.handles) q)
      by_cases hq : q = s.nextO
      · subst hq
        simp [tset, refs, hrn]
      · have hq' : s.nextO ≠ q := Ne.symm hq
        simp only [tset, if_neg hq, refs, Option.some.injEq, if_neg hq',
          Nat.zero_add]
        exact hI.tbl q
    · intro q hq
      show q < s.nextO + 1
      have hq' : refs ((s.nextH, some s.nextO) :: s.handles) q ≠ 0 := hq
      simp only [refs, Option.some.injEq] at hq'
      by_cases hqo : s.nextO = q
      · omega
      · rw [if_neg hqo] at hq'
        have := hI.objBound q (by omega)
        omega
    · intro q hq
      have hdq := hI.delDead q hq
      show refs ((s.nextH, some s.nextO) :: s.handles) q = 0 ∧ q < s.nextO + 1
      have hqo : s.nextO ≠ q := by omega
      simp only [refs, Option.some.injEq, if_neg hqo, Nat.zero_add]
      exact ⟨hdq.1, by omega⟩
  | newNull =>
    simp [step] at hok
    subst hok
    refine ⟨?_, ?_, hI.delNodup, ?_⟩
    · intro q
      show s.table q = if refs ((s.nextH, none) :: s.handles) q = 0 then none
        else some (refs ((s.nextH, none) :: s.handles) q)
      simp only [refs, reduceCtorEq, if_false, Nat.zero_add]
      exact hI.tbl q
    · intro q hq
      show q < s.nextO
      have hq' : refs ((s.nextH, none) :: s.handles) q ≠ 0 := hq
      simp only [refs, reduceCtorEq, if_false, Nat.zero_add] at hq'
      exact hI.objBound q hq'
    · intro q hq
      have hdq := hI.delDead q hq
      show refs ((s.nextH, none) :: s.handles) q = 0 ∧ q < s.nextO
      simp only [refs, reduceCtorEq, if_false, Nat.zero_add]
      exact hdq
  | copyCon g =>
    rcases hg : getData s.handles g with _ | d
    · simp [step, hg] at hok
    · rcases d with _ | p
      · simp [step, hg] at hok
        subst hok
        refine ⟨?_, ?_, hI.delNodup, ?_⟩
        · intro q
          show s.table q = if refs ((s.nextH, none) :: s.handles) q = 0 then none
            else some (refs ((s.nextH, none) :: s.handles) q)
          simp only [refs, reduceCtorEq, if_false, Nat.zero_add]
          exact hI.tbl q
        · intro q hq
          show q < s.nextO
          have hq' : refs ((s.nextH, none) :: s.handles) q ≠ 0 := hq
          simp only [refs, reduceCtorEq, if_false, Nat.zero_add] at hq'
          exact hI.objBound q hq'
        · intro q hq
          have hdq := hI.delDead q hq
          show refs ((s.nextH, none) :: s.handles) q = 0 ∧ q < s.nextO
          simp only [refs, reduceCtorEq, if_false, Nat.zero_add]
          exact hdq
      · have hp : 1 ≤ refs s.handles p := refs_pos hg
        have htp : s.table p = some (refs s.handles p) :=
          inv_table_some hI (by omega)
        simp [step, hg, addData, htp] at hok
        subst hok
        refine ⟨?_, ?_, hI.delNodup, ?_⟩
        · intro q
          show tset s.table p (some (refs s.handles p + 1)) q =
            if refs ((s.nextH, some p) :: s.handles) q = 0 then none
            else some (refs ((s.nextH, some p) :: s.handles) q)
          by_cases hq : q = p
          · subst hq
            simp [tset, refs]
            omega
          · have hq' : p ≠ q := Ne.symm hq
            simp only [tset, if_neg hq, refs, Option.some.injEq, if_neg hq',
              Nat.zero_add]
            exact hI.tbl q
        · intro q hq
          show q < s.nextO
          have hq' : refs ((s.nextH, some p) :: s.handles) q ≠ 0 := hq
          simp only [refs, Option.some.injEq] at hq'
          by_cases hqp : p = q
          · subst hqp
            exact hI.objBound p (by omega)
          · rw [if_neg hqp] at hq'
            exact hI.objBound q (by omega)
        · intro q hq
          have hdq := hI.delDead q hq
          show refs ((s.nextH, some p) :: s.handles) q = 0 ∧ q < s.nextO
          have hqp : p ≠ q := by
            intro hpq
            subst hpq
            omega
          simp only [refs, Option.some.injEq, if_neg hqp, Nat.zero_add]
          exact hdq
  | moveCon g =>
    rcases hg : getData s.handles g with _ | d
    · simp [step, hg] at hok
    · simp [step, hg] at hok
      subst hok
      have hcons : ∀ q, refs ((s.nextH, d) :: setData s.handles g none) q =
          refs s.handles q := by
        intro q
        have hx := refs_setData hg none q
        simp only [show ((none : Option Nat) = some q) = False by simp, if_false,
          Nat.add_zero] at hx
        simp only [refs]
        omega
      refine ⟨?_, ?_, hI.delNodup, ?_⟩
      · intro q
        show s.table q =
          if refs ((s.nextH, d) :: setData s.handles g none) q = 0 then none
          else some (refs ((s.nextH, d) :: setData s.handles g none) q)
        rw [hcons q]
        exact hI.tbl q
      · intro q hq
        show q < s.nextO
        have hq' : refs ((s.nextH, d) :: setData s.handles g none) q ≠ 0 := hq
        rw [hcons q] at hq'
        exact hI.objBound q hq'
      · intro q hq
        show refs ((s.nextH, d) :: setData s.handles g none) q = 0 ∧ q < s.nextO
        rw [hcons q]
        exact hI.delDead q hq
  | copyAsn a b =>
    by_cases hab : a = b
    · subst hab
      simp [step] at hok
      subst hok
      exact hI
    · rcases hga : getData s.handles a with _ | da
      · simp [step, hab, hga] at hok
      · rcases hgb : getData s.handles b with _ | db
        · simp [step, hab, hga, hgb] at hok
        · rcases hrel : releaseData s a true with e | s1
          · simp [step, hab, hga, hgb, hrel] at hok
          · have hI1 := releaseData_inv hI hrel
            obtain ⟨⟨d0, hd0⟩, hh1, hnh1, hno1⟩ := releaseData_ok_shape hrel
            have hgb1 : getData s1.handles b = some db := by
              rw [hh1, getData_setData_ne (Ne.symm hab)]
              exact hgb
            have hga1 : getData s1.handles a = some none := by
              rw [hh1]
              exact getData_setData_self hd0 none
            rcases db with _ | p1
            · simp [step, hab, hga, hgb, hrel, addData] at hok
            · have hp1 : 1 ≤ refs s1.handles p1 := refs_pos hgb1
              have ht1 : s1.table p1 = some (refs s1.handles p1) :=
                inv_table_some hI1 (by omega)
              simp [step, hab, hga, hgb, hrel, addData, ht1] at hok
              subst hok
              have hra : ∀ q, refs (setData s1.handles a (some p1)) q =
                  refs s1.handles q + (if p1 = q then 1 else 0) := by
                intro q
                have := refs_setData_of_null hga1 (some p1) q
                simpa using this
              refine ⟨?_, ?_, hI1.delNodup, ?_⟩
              · intro q
                show tset s1.table p1 (some (refs s1.handles p1 + 1)) q =
                  if refs (setData s1.handles a (some p1)) q = 0 then none
                  else some (refs (setData s1.handles a (some p1)) q)
                rw [hra q]
                by_cases hq : q = p1
                · subst hq
                  simp [tset]
                · have hq' : p1 ≠ q := Ne.symm hq
                  simp only [tset, if_neg hq, if_neg hq', Nat.add_zero]
                  exact hI1.tbl q
              · intro q hq
                show q < s1.nextO
                have hq' : refs (setData s1.handles a (some p1)) q ≠ 0 := hq
                rw [hra q] at hq'
                by_cases hqp : p1 = q
                · subst hqp
                  exact hI1.objBound p1 (by omega)
                · rw [if_neg hqp] at hq'
                  exact hI1.objBound q (by omega)
              · intro q hq
                have hdq := hI1.delDead q hq
                show refs (setData s1.handles a (some p1)) q = 0 ∧ q < s1.nextO
                rw [hra q]
                have hqp : p1 ≠ q := by
                  intro hpq
                  subst hpq
                  omega
                rw [if_neg hqp]
                exact ⟨by omega, hdq.2⟩
  | moveAsn a b =>
    by_cases hab : a = b
    · subst hab
      simp [step] at hok
      subst hok
      exact hI
    · rcases hga : getData s.handles a with _ | da
      · simp [step, hab, hga] at hok
      · rcases hgb : getData s.handles b with _ | db
        · simp [step, hab, hga, hgb] at hok
        · rcases hrel : releaseData s a true with e | s1
          · simp [step, hab, hga, hgb, hrel] at hok
          · have hI1 := releaseData_inv hI hrel
            obtain ⟨⟨d0, hd0⟩, hh1, hnh1, hno1⟩ := releaseData_ok_shape hrel
            have hgb1 : getData s1.handles b = some db := by
              rw [hh1, getData_setData_ne (Ne.symm hab)]
              exact hgb
            have hga1 : getData s1.handles a = some none := by
              rw [hh1]
              exact getData_setData_self hd0 none
            simp [step, hab, hga, hgb, hrel] at hok
            subst hok
            have hgb2 : getData (setData s1.handles a db) b = some db := by
              rw [getData_setData_ne (Ne.symm hab)]
              exact hgb1
            have hcomp : ∀ q, refs (setData (setData s1.handles a db) b none) q =
                refs s1.handles q := by
              intro q
              have h1 := refs_setData_of_null hga1 db q
              have h2 := refs_setData hgb2 none q
              simp only [show ((none : Option Nat) = some q) = False by simp,
                if_false, Nat.add_zero] at h2
              omega
            refine ⟨?_, ?_, hI1.delNodup, ?_⟩
            · intro q
              show s1.table q =
                if refs (setData (setData s1.handles a db) b none) q = 0 then none
                else some (refs (setData (setData s1.handles a db) b none) q)
              rw [hcomp q]
              exact hI1.tbl q
            · intro q hq
              show q < s1.nextO
              have hq' : refs (setData (setData s1.handles a db) b none) q ≠ 0 := hq
              rw [hcomp q] at hq'
              exact hI1.objBound q hq'
            · intro q hq
              show refs (setData (setData s1.handles a db) b none) q = 0 ∧
                q < s1.nextO
              rw [hcomp q]
              exact hI1.delDead q hq
  | destroy h =>
    rcases hrel : releaseData s h true with e | s1
    · simp [step, hrel] at hok
    · have hI1 := releaseData_inv hI hrel
      obtain ⟨⟨d0, hd0⟩, hh1, hnh1, hno1⟩ := releaseData_ok_shape hrel
      have hga1 : getData s1.handles h = some none := by
        rw [hh1]
        exact getData_setData_self hd0 none
      simp [step, hrel] at hok
      subst hok
      refine ⟨?_, ?_, hI1.delNodup, ?_⟩
      · intro q
        show s1.table q = if refs (eraseH s1.handles h) q = 0 then none
          else some (refs (eraseH s1.handles h) q)
        rw [refs_eraseH_of_null hga1 q]
        exact hI1.tbl q
      · intro q hq
        show q < s1.nextO
        have hq' : refs (eraseH s1.handles h) q ≠ 0 := hq
        rw [refs_eraseH_of_null hga1 q] at hq'
        exact hI1.objBound q hq'
      · intro q hq
        show refs (eraseH s1.handles h) q = 0 ∧ q < s1.nextO
        rw [refs_eraseH_of_null hga1 q]
        exact hI1.delDead q hq
  | release h =>
    have hok' : releaseData s h false = .ok s' := hok
    exact releaseData_inv hI hok'
  | deref h =>
    rcases hg : getData s.handles h with _ | d
    · simp [step, hg] at hok
    · rcases d with _ | p
      · simp [step, hg] at hok
      · simp [step, hg] at hok
        subst hok
        exact hI

theorem run_inv {ops : List Op} {s s' : SPState}
    (hI : SPInv s) (hok : run ops s = .ok s') : SPInv s' := by
  induction ops generalizing s with
  | nil =>
    simp [run] at hok
    subst hok
    exact hI
  | cons op rest ih =>
    rcases hst : step s op with e | s1
    · simp [run, hst] at hok
    · simp [run, hst] at hok
      exact ih (step_inv hI hst) hok

/-! ### Deletion bookkeeping of `releaseData` -/

theorem releaseData_deleted_dec {s : SPState} {h p : Nat} {dif : Bool}
    {s' : SPState} (hI : SPInv s) (hg : getData s.handles h = some (some p))
    (hok : releaseData s h dif = .ok s') (h1 : 1 < refs s.handles p) :
    s'.deleted = s.deleted := by
  have htp := inv_table_some hI (show refs s.handles p ≠ 0 by omega)
  simp [releaseData, hg, removeData_dec htp h1] at hok
  subst hok
  rfl

theorem releaseData_deleted_last {s : SPState} {h p : Nat} {s' : SPState}
    (hI : SPInv s) (hg : getData s.handles h = some (some p))
    (hok : releaseData s h true = .ok s') (h1 : refs s.handles p = 1) :
    s'.deleted = p :: s.deleted ∧ p ∉ s.deleted := by
  have htp := inv_table_some hI (show refs s.handles p ≠ 0 by omega)
  simp [releaseData, hg,
    removeData_erase htp (show ¬ 1 < refs s.handles p by omega)] at hok
  subst hok
  refine ⟨rfl, ?_⟩
  intro hmem
  have := (hI.delDead p hmem).1
  omega

theorem releaseData_table_getD {s : SPState} {h : Nat} {da : Option Nat}
    {dif : Bool} {s' : SPState} (hg : getData s.handles h = some da)
    (hok : releaseData s h dif = .ok s') (p : Nat) :
    (s'.table p).getD 0 = (s.table p).getD 0 - (if da = some p then 1 else 0) ∧
    (da ≠ some p → s'.table p = s.table p) := by
  rcases da with _ | q
  · have hs' := releaseData_null_data hg hok
    subst hs'
    simp
  · rcases hc : s.table q with _ | c
    · simp [releaseData, hg, removeData_not_managed hc] at hok
    · by_cases h1 : 1 < c
      · simp [releaseData, hg, removeData_dec hc h1] at hok
        subst hok
        by_cases hpq : q = p
        · subst hpq
          show (tset s.table q (some (c - 1)) q).getD 0 = _ ∧ _
          simp [tset, hc]
        · constructor
          · show (tset s.table q (some (c - 1)) p).getD 0 = _
            simp [tset, Ne.symm hpq, hpq]
          · intro _
            show tset s.table q (some (c - 1)) p = s.table p
            simp [tset, Ne.symm hpq]
      · simp [releaseData, hg, removeData_erase hc h1] at hok
        subst hok
        by_cases hpq : q = p
        · subst hpq
          show (tset s.table q none q).getD 0 = _ ∧ _
          simp [tset, hc]
          omega
        · constructor
          · show (tset s.table q none p).getD 0 = _
            simp [tset, Ne.symm hpq, hpq]
          · intro _
            show tset s.table q none p = s.table p
            simp [tset, Ne.symm hpq]

/-! ### The claims -/

/-- C1: for every sequence of construct, copy, move, assign, release and
destroy operations starting from the empty program state, the management
table's entry for every identity `p` equals the number of currently-live,
currently-non-null handles whose target is `p`: the entry is absent exactly
when that number is zero, and otherwise stores exactly that number (hence
an entry exists if and only if at least one live handle points at `p`, and
its count is at least 1 while it exists). -/
theorem c1_count_equals_live_nonnull_handles :
    ∀ (ops : List Op) (s : SPState), run ops initState = .ok s →
    ∀ p : Nat,
      s.table p = if refs s.handles p = 0 then none
        else some (refs s.handles p) :=
  fun _ s hrun p => (run_inv inv_initState hrun).tbl p

/-- Witness for C1: after `MakeSharedPtr` plus one copy construction the
table maps the object to 2, the number of live non-null handles. -/
theorem c1_witness :
    tset (tset emptyTable 0 (some 1)) 0 (some 2) 0 =
      if refs [(1, some 0), (0, some 0)] 0 = 0 then none
      else some (refs [(1, some 0), (0, some 0)] 0) :=
  c1_count_equals_live_nonnull_handles [Op.newObj, Op.copyCon 0]
    ⟨[(1, some 0), (0, some 0)], tset (tset emptyTable 0 (some 1)) 0 (some 2),
      [], 2, 1⟩ rfl 0

/-- C2: the claim fails on the code.  Copy-assigning a source handle that
is currently null is claimed to work like any other assignment, but the
copy continuation of `assignSelf` calls `addData(m_data)` with the adopted
null pointer and `convertToVoidPtr` throws `std::logic_error`.  Concretely:
handle 0 owns a fresh object, handle 1 is a default-constructed null
handle, and the copy assignment `handle0 = handle1` throws the ledger's
invalid-operation error instead of leaving handle 0 null. -/
theorem c2_copy_assign_null_source_throws :
    (run [Op.newObj, Op.newNull] initState).map
      (fun s => (getData s.handles 0, getData s.handles 1)) =
      .ok (some (some 0), some none) ∧
    run [Op.newObj, Op.newNull, Op.copyAsn 0 1] initState =
      .error .invalidOperation :=
  ⟨rfl, rfl⟩

/-- C3: in every reachable state the list of deleted addresses has no
duplicate (no object is deleted twice); `releaseData(false)` — the body of
`release()` — never records a deletion, whatever the state; and in a
reachable state a `releaseData(true)` drop (the body of the destructor and
of assignment's internal release) deletes the target exactly when the
dropping handle held the last reference, an address that was never deleted
before. -/
theorem c3_delete_exactly_once_at_last_drop :
    (∀ (ops : List Op) (s : SPState), run ops initState = .ok s →
      s.deleted.Nodup) ∧
    (∀ (s : SPState) (h : Nat) (s' : SPState),
      releaseData s h false = .ok s' → s'.deleted = s.deleted) ∧
    (∀ (ops : List Op) (s : SPState), run ops initState = .ok s →
      ∀ (h p : Nat) (s' : SPState), getData s.handles h = some (some p) →
        releaseData s h true = .ok s' →
        (refs s.handles p = 1 →
          s'.deleted = p :: s.deleted ∧ p ∉ s.deleted) ∧
        (1 < refs s.handles p → s'.deleted = s.deleted)) := by
  refine ⟨?_, ?_, ?_⟩
  · intro ops s hrun
    exact (run_inv inv_initState hrun).delNodup
  · intro s h s' hok
    exact releaseData_false_deleted hok
  · intro ops s hrun h p s' hg hok
    have hI := run_inv inv_initState hrun
    exact ⟨fun h1 => releaseData_deleted_last hI hg hok h1,
      fun h1 => releaseData_deleted_dec hI hg hok h1⟩

/-- Witness for C3: a run that deletes object 0 once has a duplicate-free
deletion list; a concrete `release()` drop records no deletion even though
it was the last reference; a concrete last-owner destructor drop deletes
exactly the dropped address. -/
theorem c3_witness :
    (⟨[], tset (tset emptyTable 0 (some 1)) 0 none, [0], 1, 1⟩
      : SPState).deleted.Nodup ∧
    (⟨[(0, none)], tset (tset emptyTable 0 (some 1)) 0 none, [], 1, 1⟩
      : SPState).deleted =
      (⟨[(0, some 0)], tset emptyTable 0 (some 1), [], 1, 1⟩
        : SPState).deleted ∧
    ((⟨[(0, none)], tset (tset emptyTable 0 (some 1)) 0 none, [0], 1, 1⟩
      : SPState).deleted = 0 :: [] ∧ (0 : Nat) ∉ ([] : List Nat)) :=
  ⟨c3_delete_exactly_once_at_last_drop.1 [Op.newObj, Op.destroy 0]
      ⟨[], tset (tset emptyTable 0 (some 1)) 0 none, [0], 1, 1⟩ rfl,
    c3_delete_exactly_once_at_last_drop.2.1
      ⟨[(0, some 0)], tset emptyTable 0 (some 1), [], 1, 1⟩ 0
      ⟨[(0, none)], tset (tset emptyTable 0 (some 1)) 0 none, [], 1, 1⟩ rfl,
    (c3_delete_exactly_once_at_last_drop.2.2 [Op.newObj]
      ⟨[(0, some 0)], tset emptyTable 0 (some 1), [], 1, 1⟩ rfl 0 0
      ⟨[(0, none)], tset (tset emptyTable 0 (some 1)) 0 none, [0], 1, 1⟩
      rfl rfl).1 (by decide)⟩

/-- C4: the full contract of `removeData`: a null identity fails with the
invalid-operation error and the table is returned untouched; an identity
without an entry likewise; an entry with count above 1 is decremented in
place and "not last" (`false`) is returned; an entry with count exactly 1
is erased and "last" (`true`) is returned. -/
theorem c4_removeData_contract :
    (∀ t : Table, removeData t none = (t, .error .invalidOperation)) ∧
    (∀ (t : Table) (p : Nat), t p = none →
      removeData t (some p) = (t, .error .invalidOperation)) ∧
    (∀ (t : Table) (p c : Nat), t p = some c → 1 < c →
      removeData t (some p) = (tset t p (some (c - 1)), .ok false)) ∧
    (∀ (t : Table) (p : Nat), t p = some 1 →
      removeData t (some p) = (tset t p none, .ok true)) :=
  ⟨removeData_null,
    fun _ _ h => removeData_not_managed h,
    fun _ _ _ h hc => removeData_dec h hc,
    fun _ _ h => removeData_erase h (by omega)⟩

/-- Witness for C4: the four cases at concrete tables. -/
theorem c4_witness :
    removeData emptyTable none = (emptyTable, .error .invalidOperation) ∧
    removeData emptyTable (some 3) = (emptyTable, .error .invalidOperation) ∧
    removeData (tset emptyTable 5 (some 2)) (some 5) =
      (tset (tset emptyTable 5 (some 2)) 5 (some 1), .ok false) ∧
    removeData (tset emptyTable 5 (some 1)) (some 5) =
      (tset (tset emptyTable 5 (some 1)) 5 none, .ok true) :=
  ⟨c4_removeData_contract.1 emptyTable,
    c4_removeData_contract.2.1 emptyTable 3 rfl,
    c4_removeData_contract.2.2.1 (tset emptyTable 5 (some 2)) 5 2 rfl
      (by decide),
    c4_removeData_contract.2.2.2 (tset emptyTable 5 (some 1)) 5 rfl⟩

/-- C5: counterexample.  The claim says the count query returns zero and
does not fail on a null identity, but `getCount` pipes its argument
through `convertToVoidPtr`, which throws on null: the query on a null
identity yields the invalid-operation error, not zero. -/
theorem c5_counterexample :
    getCount emptyTable none = .error .invalidOperation ∧
    getCount emptyTable none ≠ .ok 0 := by
  refine ⟨rfl, fun hcontra => ?_⟩
  simp [getCount] at hcontra

/-- C5 as amended: the count query returns the stored count for a
registered identity and zero for an unregistered non-null identity,
without failing; a null identity fails with the invalid-operation error
raised by the shared null-identity guard. -/
theorem c5_getCount_amended :
    (∀ (t : Table) (p c : Nat), t p = some c → getCount t (some p) = .ok c) ∧
    (∀ (t : Table) (p : Nat), t p = none → getCount t (some p) = .ok 0) ∧
    (∀ t : Table, getCount t none = .error .invalidOperation) := by
  refine ⟨?_, ?_, fun t => rfl⟩
  · intro t p c h
    simp [getCount, h]
  · intro t p h
    simp [getCount, h]

/-- Witness for C5 (amended): the three cases at concrete tables. -/
theorem c5_witness :
    getCount (tset emptyTable 4 (some 7)) (some 4) = .ok 7 ∧
    getCount emptyTable (some 9) = .ok 0 ∧
    getCount emptyTable none = .error .invalidOperation :=
  ⟨c5_getCount_amended.1 (tset emptyTable 4 (some 7)) 4 7 rfl,
    c5_getCount_amended.2.1 emptyTable 9 rfl,
    c5_getCount_amended.2.2 emptyTable⟩

/-- C6: counterexample.  Handles 0 and 1 co-own object 0 with count 2;
move-assigning handle 1 into handle 0 transfers the target and nulls the
source, but the count drops from 2 to 1 because the assignment first
releases the destination's current target — the same object.  This
refutes "move-assigning from b does not change the target's reference
count" as stated. -/
theorem c6_counterexample :
    (run [Op.newObj, Op.copyCon 0] initState).map
      (fun s => ((s.table 0).getD 0, getData s.handles 0, getData s.handles 1)) =
      .ok (2, some (some 0), some (some 0)) ∧
    (run [Op.newObj, Op.copyCon 0, Op.moveAsn 0 1] initState).map
      (fun s => ((s.table 0).getD 0, getData s.handles 0, getData s.handles 1)) =
      .ok (1, some (some 0), some none) :=
  ⟨rfl, rfl⟩

/-- C6 as amended: move construction transfers the raw target, leaves the
source null and leaves the whole table unchanged.  Move assignment into
the same handle instance is a no-op (the source stays as it is).  Move
assignment into a different handle transfers the raw target and leaves
the source null, and the target's count is unchanged except that the
destination's prior ownership of that same target is released first, in
which case the count decreases by exactly one. -/
theorem c6_move_amended :
    (∀ (s : SPState) (g : Nat) (d : Option Nat) (s' : SPState),
      g ≠ s.nextH → getData s.handles g = some d →
      step s (.moveCon g) = .ok s' →
      s'.table = s.table ∧ getData s'.handles s.nextH = some d ∧
      getData s'.handles g = some none) ∧
    (∀ (s : SPState) (a : Nat), step s (.moveAsn a a) = .ok s) ∧
    (∀ (s : SPState) (a b : Nat) (da db : Option Nat) (s' : SPState),
      a ≠ b → getData s.handles a = some da → getData s.handles b = some db →
      step s (.moveAsn a b) = .ok s' →
      getData s'.handles a = some db ∧ getData s'.handles b = some none ∧
      ∀ p : Nat, db = some p →
        (s'.table p).getD 0 =
          (s.table p).getD 0 - (if da = some p then 1 else 0) ∧
        (da ≠ some p → s'.table p = s.table p)) := by
  refine ⟨?_, ?_, ?_⟩
  · intro s g d s' hne hg hok
    simp [step, hg] at hok
    subst hok
    refine ⟨rfl, ?_, ?_⟩
    · show getData ((s.nextH, d) :: setData s.handles g none) s.nextH = some d
      simp [getData]
    · show getData ((s.nextH, d) :: setData s.handles g none) g = some none
      have hcons : getData ((s.nextH, d) :: setData s.handles g none) g =
          getData (setData s.handles g none) g := by
        simp [getData, hne]
      rw [hcons]
      exact getData_setData_self hg none
  · intro s a
    simp [step]
  · intro s a b da db s' hab hga hgb hok
    rcases hrel : releaseData s a true with e | s1
    · simp [step, hab, hga, hgb, hrel] at hok
    · obtain ⟨⟨d0, hd0⟩, hh1, hnh1, hno1⟩ := releaseData_ok_shape hrel
      have hd0a : d0 = da := by
        rw [hd0] at hga
        exact Option.some.inj hga
      subst hd0a
      have hgb1 : getData s1.handles b = some db := by
        rw [hh1, getData_setData_ne (Ne.symm hab)]
        exact hgb
      have hga1 : getData s1.handles a = some none := by
        rw [hh1]
        exact getData_setData_self hd0 none
      simp [step, hab, hga, hgb, hrel] at hok
      subst hok
      refine ⟨?_, ?_, ?_⟩
      · show getData (setData (setData s1.handles a db) b none) a = some db
        rw [getData_setData_ne hab]
        exact getData_setData_self hga1 db
      · show getData (setData (setData s1.handles a db) b none) b = some none
        have hgb2 : getData (setData s1.handles a db) b = some db := by
          rw [getData_setData_ne (Ne.symm hab)]
          exact hgb1
        exact getData_setData_self hgb2 none
      · intro p hdbp
        have htab := releaseData_table_getD hd0 hrel p
        constructor
        · show (s1.table p).getD 0 = _
          exact htab.1
        · intro hne
          show s1.table p = s.table p
          exact htab.2 hne

/-- Witness for C6 (amended): a concrete move construction (count stays 1,
source nulled), a concrete self-move-assignment no-op, and the concrete
co-owner move assignment of the counterexample, whose count drops from 2
by exactly the one release of the destination's prior target. -/
theorem c6_witness :
    ((⟨[(1, some 0), (0, none)], tset emptyTable 0 (some 1), [], 2, 1⟩
        : SPState).table = (⟨[(0, some 0)], tset emptyTable 0 (some 1),
        [], 1, 1⟩ : SPState).table ∧
      getData [(1, some 0), (0, none)] 1 = some (some 0) ∧
      getData [(1, some 0), (0, none)] 0 = some none) ∧
    step initState (.moveAsn 0 0) = .ok initState ∧
    (((⟨[(1, none), (0, some 0)],
        tset (tset (tset emptyTable 0 (some 1)) 0 (some 2)) 0 (some 1),
        [], 2, 1⟩ : SPState).table 0).getD 0 =
      (((⟨[(1, some 0), (0, some 0)],
        tset (tset emptyTable 0 (some 1)) 0 (some 2),
        [], 2, 1⟩ : SPState).table 0).getD 0) -
        (if (some 0 : Option Nat) = some 0 then 1 else 0)) :=
  ⟨c6_move_amended.1
      ⟨[(0, some 0)], tset emptyTable 0 (some 1), [], 1, 1⟩ 0 (some 0)
      ⟨[(1, some 0), (0, none)], tset emptyTable 0 (some 1), [], 2, 1⟩
      (by decide) rfl rfl,
    c6_move_amended.2.1 initState 0,
    ((c6_move_amended.2.2
      ⟨[(1, some 0), (0, some 0)], tset (tset emptyTable 0 (some 1)) 0 (some 2),
        [], 2, 1⟩ 0 1 (some 0) (some 0)
      ⟨[(1, none), (0, some 0)],
        tset (tset (tset emptyTable 0 (some 1)) 0 (some 2)) 0 (some 1),
        [], 2, 1⟩ (by decide) rfl rfl rfl).2.2 0 rfl).1⟩

/-- C7: constructing a `SharedPtr<T>` from a raw `U*` in the downcast
direction (`U` a base of `T`, `T` not a base of `U`) performs the runtime
`dynamic_cast` check: when the pointee's dynamic type is incompatible with
`T` the handle comes out null and the table is returned exactly as it was
(nothing registered); when it is compatible, the handle keeps the pointer
and exactly its identity's count is bumped by one. -/
theorem c7_downcast_null_no_mutation :
    ∀ (t u : Cls) (tbl : Table) (i : Nat) (d : Cls),
      isBaseOf u t = true → isBaseOf t u = false →
      (isBaseOf t d = false →
        convertingConstructFrom t u tbl (some (i, d)) = (tbl, none)) ∧
      (isBaseOf t d = true →
        (convertingConstructFrom t u tbl (some (i, d))).2 = some (i, d) ∧
        (convertingConstructFrom t u tbl (some (i, d))).1 i =
          some ((tbl i).getD 0 + 1) ∧
        ∀ j, j ≠ i →
          (convertingConstructFrom t u tbl (some (i, d))).1 j = tbl j) := by
  intro t u tbl i d hup hdown
  constructor
  · intro hfail
    simp [convertingConstructFrom, hdown, dynCast, hfail, constructFromRaw]
  · intro hcast
    have hred : convertingConstructFrom t u tbl (some (i, d)) =
        ((addData tbl (some i)).1, some (i, d)) := by
      simp [convertingConstructFrom, hdown, dynCast, hcast, constructFromRaw]
    rw [hred]
    refine ⟨rfl, ?_, ?_⟩
    · rcases hti : tbl i with _ | c <;> simp [addData, hti, tset]
    · intro j hj
      rcases hti : tbl i with _ | c <;> simp [addData, hti, tset, hj]

/-- Witness for C7: a `SharedPtr<Derived>` built from a `Base*`.  When the
pointee really is a `Base`, the cast fails: null handle, table untouched.
When the pointee is dynamically a `Derived`, the cast succeeds and the
empty table registers it with count 1. -/
theorem c7_witness :
    convertingConstructFrom Cls.derived Cls.base emptyTable (some (0, Cls.base)) =
      (emptyTable, none) ∧
    (convertingConstructFrom Cls.derived Cls.base emptyTable
      (some (0, Cls.derived))).2 = some (0, Cls.derived) ∧
    (convertingConstructFrom Cls.derived Cls.base emptyTable
      (some (0, Cls.derived))).1 0 = some ((emptyTable 0).getD 0 + 1) :=
  ⟨(c7_downcast_null_no_mutation Cls.derived Cls.base emptyTable 0 Cls.base
      rfl rfl).1 rfl,
    ((c7_downcast_null_no_mutation Cls.derived Cls.base emptyTable 0
      Cls.derived rfl rfl).2 rfl).1,
    ((c7_downcast_null_no_mutation Cls.derived Cls.base emptyTable 0
      Cls.derived rfl rfl).2 rfl).2.1⟩

/-- C8: dereferencing (`operator->` / `operator*`) fails with the
null-dereference error exactly when the handle's `m_data` is null; on a
non-null handle it returns the raw target and the whole program state —
handle and table included — is exactly as before (the step yields the
unchanged state). -/
theorem c8_deref_fails_iff_null :
    opArrow none = .error .nullDereference ∧
    (∀ p : Nat, opArrow (some p) = .ok p) ∧
    (∀ (s : SPState) (h : Nat), getData s.handles h = some none →
      step s (.deref h) = .error .nullDereference) ∧
    (∀ (s : SPState) (h p : Nat), getData s.handles h = some (some p) →
      step s (.deref h) = .ok s) := by
  refine ⟨rfl, fun p => rfl, ?_, ?_⟩
  · intro s h hg
    simp [step, hg]
  · intro s h p hg
    simp [step, hg]

/-- Witness for C8: dereferencing a moved-from (null) handle fails, and
dereferencing a live owner returns the state unchanged. -/
theorem c8_witness :
    opArrow (some 7) = .ok 7 ∧
    step (⟨[(0, none)], emptyTable, [], 1, 0⟩ : SPState) (.deref 0) =
      .error .nullDereference ∧
    step (⟨[(0, some 0)], tset emptyTable 0 (some 1), [], 1, 1⟩ : SPState)
      (.deref 0) =
      .ok ⟨[(0, some 0)], tset emptyTable 0 (some 1), [], 1, 1⟩ :=
  ⟨c8_deref_fails_iff_null.2.1 7,
    c8_deref_fails_iff_null.2.2.1 ⟨[(0, none)], emptyTable, [], 1, 0⟩ 0 rfl,
    c8_deref_fails_iff_null.2.2.2
      ⟨[(0, some 0)], tset emptyTable 0 (some 1), [], 1, 1⟩ 0 0 rfl⟩

/-- C9: the claim fails on the code.  `removeData` reads the atomic
counter (`findItr->second.load()`) and then separately decrements or
erases, and the class holds no mutex, so two threads that are the two
last owners of the same identity can interleave load / load / decrement /
decrement.  In that schedule, starting from count 2, both calls return
"not last" (neither triggers deletion) and the entry is left present with
count 0 — the claim's "exactly one observes last" is violated (zero
observe it). -/
theorem c9_race_counterexample :
    (raceRun [RAct.load1, RAct.load2, RAct.commit1, RAct.commit2]
      raceInit).res1 = some false ∧
    (raceRun [RAct.load1, RAct.load2, RAct.commit1, RAct.commit2]
      raceInit).res2 = some false ∧
    (raceRun [RAct.load1, RAct.load2, RAct.commit1, RAct.commit2]
      raceInit).table 0 = some 0 :=
  ⟨rfl, rfl, rfl⟩

/-- C10: `releaseData` — hence both `release()` and the destructor's
drop — always leaves the handle's raw target null; calling `release()` on
an already-null handle succeeds and leaves the whole state exactly
unchanged; destroying a null handle changes neither the table nor the
deletion record; and after any successful `release()` a second `release()`
on the same handle is a no-op. -/
theorem c10_release_null_idempotent :
    (∀ (s : SPState) (h : Nat) (dif : Bool) (s' : SPState),
      releaseData s h dif = .ok s' → getData s'.handles h = some none) ∧
    (∀ (s : SPState) (h : Nat), getData s.handles h = some none →
      step s (.release h) = .ok s) ∧
    (∀ (s : SPState) (h : Nat) (s' : SPState), getData s.handles h = some none →
      step s (.destroy h) = .ok s' →
      s'.table = s.table ∧ s'.deleted = s.deleted) ∧
    (∀ (s : SPState) (h : Nat) (s' : SPState), step s (.release h) = .ok s' →
      step s' (.release h) = .ok s') := by
  have hA : ∀ (s : SPState) (h : Nat) (dif : Bool) (s' : SPState),
      releaseData s h dif = .ok s' → getData s'.handles h = some none := by
    intro s h dif s' hok
    obtain ⟨⟨d0, hd0⟩, hh1, _, _⟩ := releaseData_ok_shape hok
    rw [hh1]
    exact getData_setData_self hd0 none
  have hB : ∀ (s : SPState) (h : Nat), getData s.handles h = some none →
      step s (.release h) = .ok s := by
    intro s h hg
    show releaseData s h false = .ok s
    simp [releaseData, hg, setData_self_none hg]
  refine ⟨hA, hB, ?_, ?_⟩
  · intro s h s' hg hok
    simp [step, releaseData, hg] at hok
    subst hok
    exact ⟨rfl, rfl⟩
  · intro s h s' hok
    have hok' : releaseData s h false = .ok s' := hok
    exact hB s' h (hA s h false s' hok')

/-- Witness for C10: a concrete `release()` of a sole owner nulls the
handle without recording a deletion; releasing and destroying a null
handle are no-ops on the ledger; releasing twice is the same as once. -/
theorem c10_witness :
    getData [(0, none)] 0 = some none ∧
    step (⟨[(0, none)], emptyTable, [], 1, 0⟩ : SPState) (.release 0) =
      .ok ⟨[(0, none)], emptyTable, [], 1, 0⟩ ∧
    ((⟨[], emptyTable, [], 1, 0⟩ : SPState).table =
        (⟨[(0, none)], emptyTable, [], 1, 0⟩ : SPState).table ∧
      (⟨[], emptyTable, [], 1, 0⟩ : SPState).deleted =
        (⟨[(0, none)], emptyTable, [], 1, 0⟩ : SPState).deleted) ∧
    step (⟨[(0, none)], tset (tset emptyTable 0 (some 1)) 0 none, [], 1, 1⟩
        : SPState) (.release 0) =
      .ok ⟨[(0, none)], tset (tset emptyTable 0 (some 1)) 0 none, [], 1, 1⟩ :=
  ⟨c10_release_null_idempotent.1
      ⟨[(0, some 0)], tset emptyTable 0 (some 1), [], 1, 1⟩ 0 false
      ⟨[(0, none)], tset (tset emptyTable 0 (some 1)) 0 none, [], 1, 1⟩ rfl,
    c10_release_null_idempotent.2.1 ⟨[(0, none)], emptyTable, [], 1, 0⟩ 0 rfl,
    c10_release_null_idempotent.2.2.1 ⟨[(0, none)], emptyTable, [], 1, 0⟩ 0
      ⟨[], emptyTable, [], 1, 0⟩ rfl rfl,
    c10_release_null_idempotent.2.2.2
      ⟨[(0, some 0)], tset emptyTable 0 (some 1), [], 1, 1⟩ 0
      ⟨[(0, none)], tset (tset emptyTable 0 (some 1)) 0 none, [], 1, 1⟩ rfl⟩
